import Mathlib

/-!
Verification of the mailwebadmin web administration panel.

This file gives a shallow embedding in Lean 4 of the request handlers,
validation utilities, data-access operations and the backup/delete
workflow of the mailwebadmin server (`admin.go`, `api.go`, `validate.go`,
`mail_sql.go`, `backup.go`), and proves properties about them.

External collaborators (the SQL driver, the goauth session store, the
filesystem) are modelled by explicit inputs: a handler that calls a
collaborator is embedded as a function taking the collaborator's result
as an argument.  Go maps are embedded as association lists whose entry
order stands for the (unspecified) map iteration order.  Go `error`
values are `Option String` (`none` = nil) or `Except String`.
-/

/-! ## String utilities

Go's `strings.Contains`, `strings.Split` and the simplified mail regexp
`^([a-zA-Z0-9_.+-]+@[a-zA-Z0-9-]+\.[a-zA-Z0-9-.]+$)` are embedded as
executable functions on `List Char`.  `utf8.RuneCountInString` is
`String.length` (both count Unicode code points).
-/

/-- Does the second list occur as a prefix of the first argument order:
`startsWithSeq pat l` holds when `l` starts with `pat`. -/
def startsWithSeq : List Char → List Char → Bool
  | [], _ => true
  | _ :: _, [] => false
  | p :: ps, c :: cs => p == c && startsWithSeq ps cs

/-- `containsSeq l pat`: does `pat` occur as a contiguous subsequence of
`l`?  Embeds Go's `strings.Contains`. -/
def containsSeq : List Char → List Char → Bool
  | [], pat => pat.isEmpty
  | c :: rest, pat => startsWithSeq pat (c :: rest) || containsSeq rest pat

/-- Embeds `strings.Contains(s, pat)`. -/
def strContains (s pat : String) : Bool :=
  containsSeq s.data pat.data

/-- Embeds `strings.Split(l, sep)` on character lists: split at every
occurrence of `sep`. -/
def splitOnAt (sep : Char) : List Char → List (List Char)
  | [] => [[]]
  | c :: rest =>
      let r := splitOnAt sep rest
      if c = sep then [] :: r
      else
        match r with
        | [] => [[c]]
        | h :: t => (c :: h) :: t

/-- Character class `[a-zA-Z0-9_.+-]` of the local part of the mail
regexp in `validate.go`. -/
def isLocalChar (c : Char) : Bool :=
  c.isAlpha || c.isDigit || c == '_' || c == '.' || c == '+' || c == '-'

/-- Character class `[a-zA-Z0-9-]` of the first domain label of the mail
regexp. -/
def isDomChar (c : Char) : Bool :=
  c.isAlpha || c.isDigit || c == '-'

/-- Character class `[a-zA-Z0-9-.]` of the tail of the domain of the
mail regexp. -/
def isDomDotChar (c : Char) : Bool :=
  isDomChar c || c == '.'

/-- Matcher for the domain half `[a-zA-Z0-9-]+\.[a-zA-Z0-9-.]+$` of the
mail regexp: a non-empty label over `isDomChar`, a literal dot, then a
non-empty tail over `isDomDotChar`. -/
def matchDomainChars (l : List Char) : Bool :=
  match l.dropWhile isDomChar with
  | '.' :: d2 => !(l.takeWhile isDomChar).isEmpty && !d2.isEmpty && d2.all isDomDotChar
  | _ => false

/-- Matcher for the anchored regexp
`^([a-zA-Z0-9_.+-]+@[a-zA-Z0-9-]+\.[a-zA-Z0-9-.]+$)`: a non-empty local
part, an at sign, then the domain half.  Since neither character class
contains the at sign, matching against the first maximal local run is
equivalent to the regexp's language. -/
def matchMailChars (l : List Char) : Bool :=
  match l.dropWhile isLocalChar with
  | '@' :: domain => !(l.takeWhile isLocalChar).isEmpty && matchDomainChars domain
  | _ => false

/-- `mailRegexp.FindStringSubmatch(s) != nil` from `validate.go`. -/
def mailRegexpMatch (s : String) : Bool :=
  matchMailChars s.data

/-! ## validate.go -/

/-- Message of `containsInvalidParts` in `validate.go`. -/
def invalidPartsMsg : String :=
  "string contains one of the following invalid substrings: \"..\", \"/\", \"\\\""

/-- Embeds `containsInvalidParts` (`validate.go`): reject a string
containing `..`, `/` or `\`. -/
def containsInvalidParts (s : String) : Option String :=
  if strContains s ".." || strContains s "/" || strContains s "\\" then
    some invalidPartsMsg
  else none

/-- Embeds `domainNameValid` (`validate.go`): `containsInvalidParts`
followed by a 50 code point length bound.  There is no emptiness
check. -/
def domainNameValid (name : String) : Option String :=
  match containsInvalidParts name with
  | some e => some e
  | none =>
      if name.length > 50 then some "Domain name must be at most 50." else none

/-- Embeds `emailValid` (`validate.go`): `containsInvalidParts`, then
the mail regexp, then a 100 code point length bound. -/
def emailValid (mail : String) : Option String :=
  match containsInvalidParts mail with
  | some e => some e
  | none =>
      if mailRegexpMatch mail then
        if mail.length > 100 then some "Email length must be at most 100." else none
      else some "Invalid Email address"

/-- Embeds `IsValidMail` (`admin.go`): just the mail regexp. -/
def IsValidMail (email : String) : Option String :=
  if mailRegexpMatch email then none else some "Invalid Email address"

/-! ## mail_sql.go: ParseMailParts -/

/-- Embeds `ParseMailParts` (`mail_sql.go`): split on the at sign; the
result must have exactly two components and a non-empty domain part.
The Go error messages interpolate the address; the embedding keeps fixed
message strings. -/
def ParseMailParts (email : String) : Except String (String × String) :=
  match splitOnAt '@' email.data with
  | [l, d] =>
      if d = [] then Except.error "Invalid Email address: empty domain part"
      else Except.ok (String.mk l, String.mk d)
  | _ => Except.error "Invalid Email address"

/-! ## admin.go: session middleware and login

`goauth.SessionController.ValidateSession` and `session.Save` are
external collaborators; their results are inputs of the embedding.
A `gorilla` session is modelled by the parts the code touches: the
`remember-me` entry of `session.Values` (absent, present with a
non-bool value, or a bool) and `session.Options.MaxAge`.
-/

/-- Errors of the goauth session store seen by `LoginRequired`:
the three sentinels of its `switch`, or any other error. -/
inductive GoError where
  | notAuthSession
  | keyNotFound
  | invalidKey
  | other (msg : String)
deriving DecidableEq, Repr

/-- A value stored under `session.Values["remember-me"]`: a bool, or a
value of some other type (the `interface{}` type-assertion fails). -/
inductive RememberVal where
  | boolVal (b : Bool)
  | nonBool
deriving DecidableEq, Repr

/-- The `session.Options` the code touches. -/
structure SessionOptions where
  maxAge : Int
deriving DecidableEq, Repr

/-- The parts of a gorilla session the code touches. -/
structure Session where
  rememberMe : Option RememberVal
  options : SessionOptions
deriving DecidableEq, Repr

/-- Membership of an error in the redirect `case` of `LoginRequired`:
`goauth.ErrNotAuthSession, goauth.ErrKeyNotFound, goauth.ErrInvalidKey`. -/
def isAuthFailure : GoError → Bool
  | GoError.notAuthSession => true
  | GoError.keyNotFound => true
  | GoError.invalidKey => true
  | GoError.other _ => false

/-- Observable outcome of the `LoginRequired` middleware for one
request.  `redirect` means the handler wrote a redirect and returned
nil without invoking the wrapped handler; `internalError` means the
middleware returned the error (the surrounding `MailAppHandler` then
responds 500); `invokeHandler s b` means the wrapped handler was
invoked, after the session was saved as `s` (`b` records whether the
save failed and was only logged). -/
inductive MiddlewareResult where
  | redirect (location : String) (status : Nat)
  | internalError (e : GoError)
  | invokeHandler (s : Session) (saveFailed : Bool)
deriving DecidableEq, Repr

/-- Embeds `LoginRequired` (`admin.go` lines 83 to 117).
`validateRes` is the result of `ValidateSession`; `saveErr` the result
of `session.Save` on the possibly mutated session. -/
def LoginRequired (validateRes : Except GoError Session) (saveErr : Option GoError) :
    MiddlewareResult :=
  match validateRes with
  | Except.error e =>
      if isAuthFailure e then MiddlewareResult.redirect "/login" 302
      else MiddlewareResult.internalError e
  | Except.ok session =>
      let session :=
        match session.rememberMe with
        | none => session
        | some RememberVal.nonBool => session
        | some (RememberVal.boolVal rememberMe) =>
            if !rememberMe then { session with options := { session.options with maxAge := 0 } }
            else session
      MiddlewareResult.invokeHandler session saveErr.isSome

/-- The JSON body of a login request, as decoded by `CheckLogin`. -/
structure LoginData where
  username : String
  password : String
  rememberMe : Bool
deriving DecidableEq, Repr

/-- Result of `appcontext.UserHandler.Validate(username, password)` as
seen by `CheckLogin`'s branches: the `goauth.ErrUserNotFound` sentinel,
any other error, the `goauth.NoUserID` sentinel (wrong password), or a
real user id. -/
inductive ValidateOutcome where
  | userNotFound
  | failure (e : String)
  | noUser
  | success (userId : Nat)
deriving DecidableEq, Repr

/-- Observable outcome of `CheckLogin`: a 400 response (handler returns
nil), a propagated internal error, or a session cookie plus a 302
redirect to the root. -/
inductive LoginOutcome where
  | httpError (status : Nat) (body : String)
  | internalError (e : String)
  | redirect (location : String) (status : Nat) (s : Session) (saveFailed : Bool)
deriving DecidableEq, Repr

/-- Embeds `CheckLogin` (`admin.go` lines 149 to 203).  `body` is the
decoded JSON body (`none` = read or decode failure), `validateRes` the
result of `UserHandler.Validate`, `createRes` the result of
`CreateAuthSession`, `saveErr` the result of `session.Save`. -/
def CheckLogin (body : Option LoginData) (validateRes : ValidateOutcome)
    (createRes : Except String Session) (saveErr : Option String) : LoginOutcome :=
  match body with
  | none => LoginOutcome.httpError 400 "Invalid request syntax"
  | some loginData =>
      match validateRes with
      | ValidateOutcome.userNotFound => LoginOutcome.httpError 400 "Login failed"
      | ValidateOutcome.failure e => LoginOutcome.internalError e
      | ValidateOutcome.noUser => LoginOutcome.httpError 400 "Login failed"
      | ValidateOutcome.success _ =>
          match createRes with
          | Except.error e => LoginOutcome.internalError e
          | Except.ok session =>
              let session :=
                { session with rememberMe := some (RememberVal.boolVal loginData.rememberMe) }
              let session :=
                if !loginData.rememberMe then
                  { session with options := { session.options with maxAge := 0 } }
                else session
              LoginOutcome.redirect "/" 302 session saveErr.isSome

/-! ## api.go: addDomain and addAlias

Request bodies are modelled after JSON decoding (`none` = read or
decode failure).  The outcome distinguishes a 400 written before any
data-access call from reaching the data-access write.
-/

/-- Outcome of `addDomain`: a 400 response before any data-access call,
or the call `AddVirtualDomain(appContext, name)` (a database write). -/
inductive AddDomainOutcome where
  | httpError (status : Nat) (body : String)
  | dbWrite (name : String)
deriving DecidableEq, Repr

/-- Embeds `addDomain` (`api.go` lines 115 to 153): decode the body,
run `domainNameValid`, and only then call `AddVirtualDomain`. -/
def addDomain (body : Option String) : AddDomainOutcome :=
  match body with
  | none => AddDomainOutcome.httpError 400 "Invalid request syntax"
  | some name =>
      match domainNameValid name with
      | some e => AddDomainOutcome.httpError 400 e
      | none => AddDomainOutcome.dbWrite name

/-- The decoded JSON body of an add-alias request. -/
structure AliasData where
  Source : String
  Dest : String
deriving DecidableEq, Repr

/-- Outcome of `addAlias`: a 400 response before any data-access call,
or the call `AddAlias(appContext, source, dest)`. -/
inductive AddAliasOutcome where
  | httpError (status : Nat) (body : String)
  | dbAdd (source dest : String)
deriving DecidableEq, Repr

/-- Embeds `addAlias` (`api.go` lines 435 to 484): decode the body, run
`emailValid` on `Source`, then `emailValid` on `Dest`, and only then
call `AddAlias`. -/
def addAlias (body : Option AliasData) : AddAliasOutcome :=
  match body with
  | none => AddAliasOutcome.httpError 400 "Invalid request syntax"
  | some aliasData =>
      match emailValid aliasData.Source with
      | some e => AddAliasOutcome.httpError 400 e
      | none =>
          match emailValid aliasData.Dest with
          | some e => AddAliasOutcome.httpError 400 e
          | none => AddAliasOutcome.dbAdd aliasData.Source aliasData.Dest

/-- Embeds the validation prefix of the data-layer `AddAlias`
(`mail_sql.go` lines 196 to 211): the source only has to pass
`ParseMailParts` (its comment: the source could be a catch-all alias,
so it is not checked as a full mail address), the destination must pass
`IsValidMail` and `ParseMailParts`.  `none` means validation passed and
the function proceeds to the domain lookup and the insert. -/
def AddAliasValidate (source destination : String) : Option String :=
  match ParseMailParts source with
  | Except.error e => some e
  | Except.ok _ =>
      match IsValidMail destination with
      | some e => some e
      | none =>
          match ParseMailParts destination with
          | Except.error e => some e
          | Except.ok _ => none

/-! ## Association lists

Go maps are embedded as association lists; `setA` is map assignment
(replace or append) and `lookupA` is map lookup.
-/

/-- Map lookup on an association list. -/
def lookupA {K V : Type} [DecidableEq K] : List (K × V) → K → Option V
  | [], _ => none
  | (k', v) :: rest, k => if k' = k then some v else lookupA rest k

/-- Map assignment on an association list: replace the binding of `k`
or append a new one. -/
def setA {K V : Type} [DecidableEq K] : List (K × V) → K → V → List (K × V)
  | [], k, v => [(k, v)]
  | (k', v') :: rest, k, v =>
      if k' = k then (k, v) :: rest else (k', v') :: setA rest k v

/-! ## mail_sql.go: rows and delete operations -/

/-- A row of `virtual_users` as read by `ListVirtualUsers`. -/
structure VirtualUser where
  DomainID : Int
  Mail : String
deriving DecidableEq, Repr

/-- A row of `virtual_aliases` as read by `ListVirtualAliases`. -/
structure Alias where
  DomainID : Int
  Source : String
  Dest : String
deriving DecidableEq, Repr

/-- Result of one data-layer delete: the table after the `DELETE`
statement, whether the zero-or-many affected rows warning was logged,
and the error returned to the caller. -/
structure DelResult (V : Type) where
  table : List (Int × V)
  warned : Bool
  err : Option String
deriving DecidableEq, Repr

/-- Embeds the execution of `DELETE FROM ... WHERE id = ?` on a table
keyed by id: the remaining rows and the number of affected rows. -/
def execDelete {V : Type} (table : List (Int × V)) (id : Int) :
    List (Int × V) × Nat :=
  ((table.filter fun p => !(p.1 == id)), (table.filter fun p => p.1 == id).length)

/-- Embeds `DeleteVirtualDomain` (`mail_sql.go` lines 78 to 91): run the
delete; when the affected count is not 1 only log a warning; return
nil either way. -/
def DeleteVirtualDomain (table : List (Int × String)) (domainID : Int) :
    DelResult String :=
  let res := execDelete table domainID
  { table := res.1, warned := res.2 != 1, err := none }

/-- Embeds `DelMailUser` (`mail_sql.go` lines 183 to 194): same shape as
`DeleteVirtualDomain` on `virtual_users`. -/
def DelMailUser (table : List (Int × VirtualUser)) (emailID : Int) :
    DelResult VirtualUser :=
  let res := execDelete table emailID
  { table := res.1, warned := res.2 != 1, err := none }

/-- Embeds `DelAlias` (`mail_sql.go` lines 230 to 241): same shape on
`virtual_aliases`; it returns the (nil) `err` of the exec. -/
def DelAlias (table : List (Int × Alias)) (aliasID : Int) :
    DelResult Alias :=
  let res := execDelete table aliasID
  { table := res.1, warned := res.2 != 1, err := none }

/-! ## backup.go: writeZip, zipToFile and the background task

The filesystem is abstracted: `os.Stat` on the source path yields
`Option StatInfo` (`none` = stat error, i.e. the directory does not
exist), and the `filepath.Walk` over an existing source is abstracted as
either an error or the list of entries it writes into the archive.
-/

/-- The part of `os.FileInfo` the code touches. -/
structure StatInfo where
  isDir : Bool
deriving DecidableEq, Repr

/-- One entry written into the zip archive (a header name plus whether
it is a directory entry without payload). -/
structure ZipEntry where
  name : String
  isDir : Bool
deriving DecidableEq, Repr

/-- Embeds `writeZip` (`backup.go` lines 76 to 130): when `os.Stat` on
the source fails the function returns nil immediately, before creating
the archive writer, so nothing is written; otherwise the walk either
fails with an error or produces the archive entries. -/
def writeZip (stat : Option StatInfo) (walk : Except String (List ZipEntry)) :
    List ZipEntry × Option String :=
  match stat with
  | none => ([], none)
  | some _ =>
      match walk with
      | Except.error e => ([], some e)
      | Except.ok entries => (entries, none)

/-- Outcome of `zipToFile`: whether the destination file was created by
`os.Create` (it is created, possibly zero-length, before any archive
content is written), the archive entries written, and the returned
error. -/
structure ZipOutcome where
  destCreated : Bool
  entries : List ZipEntry
  err : Option String
deriving DecidableEq, Repr

/-- Embeds `zipToFile` (`backup.go` lines 132 to 147): `os.Create` the
destination, then `writeZip`, then flush. -/
def zipToFile (createOk : Bool) (stat : Option StatInfo)
    (walk : Except String (List ZipEntry)) (flushOk : Bool) : ZipOutcome :=
  if createOk then
    let res := writeZip stat walk
    match res.2 with
    | some e => { destCreated := true, entries := res.1, err := some e }
    | none =>
        if flushOk then { destCreated := true, entries := res.1, err := none }
        else { destCreated := true, entries := res.1, err := some "flush failed" }
  else { destCreated := false, entries := [], err := some "create failed" }

/-- The filesystem actions of the background backup/delete goroutine, in
order: `archive` is the `zipDomainDir`/`zipUserDir` call, `removeDir`
the `deleteDomainDir`/`deleteUserDir` (`os.RemoveAll`) call. -/
inductive TaskEvent where
  | archive
  | removeDir
deriving DecidableEq, Repr

/-- Embeds the body of the background goroutine spawned by
`deleteDomain` and `deleteMail` (`api.go` lines 160 to 192 and 331 to
363): on a lookup error, return after logging; when a backup directory
is configured, archive, and on archive error return without removing;
finally remove the directory (its error is only logged).  The value is
the ordered list of filesystem actions performed. -/
def backupDeleteTask {A : Type} (lookupRes : Except String A) (backupDir : String)
    (archiveErr : Option String) : List TaskEvent :=
  match lookupRes with
  | Except.error _ => []
  | Except.ok _ =>
      if backupDir = "" then [TaskEvent.removeDir]
      else
        match archiveErr with
        | some _ => [TaskEvent.archive]
        | none => [TaskEvent.archive, TaskEvent.removeDir]

/-- Embeds `deleteDomain` (`api.go` lines 160 to 192): when the delete
policy flag is set, spawn the background task (whose trace is the second
component); the handler's own result is `DeleteVirtualDomain`. -/
def deleteDomain (deleteFlag : Bool) (backupDir : String)
    (lookupRes : Except String String) (archiveErr : Option String)
    (table : List (Int × String)) (domainID : Int) :
    DelResult String × List TaskEvent :=
  (DeleteVirtualDomain table domainID,
    if deleteFlag then backupDeleteTask lookupRes backupDir archiveErr else [])

/-- Embeds `deleteMail` (`api.go` lines 331 to 363): when the delete
policy flag is set, spawn the background task; the handler's own result
is `DelMailUser`. -/
def deleteMail (deleteFlag : Bool) (backupDir : String)
    (lookupRes : Except String (String × String)) (archiveErr : Option String)
    (table : List (Int × VirtualUser)) (userID : Int) :
    DelResult VirtualUser × List TaskEvent :=
  (DelMailUser table userID,
    if deleteFlag then backupDeleteTask lookupRes backupDir archiveErr else [])

/-! ## mail_sql.go: ListAllUsers

`ListAllUsers` runs `ListVirtualUsers` and `ListVirtualAliases` in two
goroutines, waits for both, checks both errors (users first), and only
then merges.  The embedding takes the two query results as inputs; the
iteration order of the Go maps is the order of the association lists.
-/

/-- Embeds `ListUserResult` (`mail_sql.go`): the merged entry for one
address; `aliasFor` is the `AliasFor` map keyed by alias id. -/
structure ListUserResult where
  virtualUser : Option VirtualUser
  virtualUserID : Int
  aliasFor : List (Int × Alias)
deriving DecidableEq, Repr

/-- Embeds `NewListResultForVirtualUser`. -/
def NewListResultForVirtualUser (user : VirtualUser) (virtualUserID : Int) :
    ListUserResult :=
  { virtualUser := some user, virtualUserID := virtualUserID, aliasFor := [] }

/-- Embeds `NewListResultForVirtualAlias`. -/
def NewListResultForVirtualAlias : ListUserResult :=
  { virtualUser := none, virtualUserID := -1, aliasFor := [] }

/-- The loop body of the first goroutine of `ListAllUsers`: insert an
entry keyed by the user's mail for every virtual user row. -/
def buildUserMapAux (acc : List (String × ListUserResult)) :
    List (Int × VirtualUser) → List (String × ListUserResult)
  | [] => acc
  | (userID, user) :: rest =>
      buildUserMapAux (setA acc user.Mail (NewListResultForVirtualUser user userID)) rest

/-- The merge loop body of `ListAllUsers` for one alias: parse the
source (a parse error aborts the whole merge), skip catch-alls (empty
local part), otherwise ensure an entry keyed by the source exists
(creating a synthetic one if needed) and assign the alias into its
`AliasFor` map under the alias id. -/
def applyAlias (acc : List (String × ListUserResult)) (virtualID : Int) (al : Alias) :
    Except String (List (String × ListUserResult)) :=
  match ParseMailParts al.Source with
  | Except.error e => Except.error e
  | Except.ok (name, _) =>
      if name = "" then Except.ok acc
      else
        match lookupA acc al.Source with
        | some entry =>
            Except.ok (setA acc al.Source
              { entry with aliasFor := setA entry.aliasFor virtualID al })
        | none =>
            Except.ok (setA acc al.Source
              { NewListResultForVirtualAlias with
                  aliasFor := setA NewListResultForVirtualAlias.aliasFor virtualID al })

/-- The merge loop of `ListAllUsers` over all aliases. -/
def mergeAliases (acc : List (String × ListUserResult)) :
    List (Int × Alias) → Except String (List (String × ListUserResult))
  | [] => Except.ok acc
  | (virtualID, al) :: rest =>
      match applyAlias acc virtualID al with
      | Except.error e => Except.error e
      | Except.ok acc' => mergeAliases acc' rest

/-- Embeds `ListAllUsers` (`mail_sql.go` lines 358 to 433): both query
results are joined; the users error is checked first, then the aliases
error; only with both nil does the merge run.  An error always comes
with a nil (absent) map. -/
def ListAllUsers (usersRes : Except String (List (Int × VirtualUser)))
    (aliasesRes : Except String (List (Int × Alias))) :
    Except String (List (String × ListUserResult)) :=
  match usersRes, aliasesRes with
  | Except.error e, _ => Except.error e
  | Except.ok _, Except.error e => Except.error e
  | Except.ok users, Except.ok aliases =>
      mergeAliases (buildUserMapAux [] users) aliases

/-! ## Helper lemmas -/

/-- `containsInvalidParts` succeeds exactly when none of the three bad
substrings occurs. -/
theorem containsInvalidParts_eq_none_iff (s : String) :
    containsInvalidParts s = none ↔
      strContains s ".." = false ∧ strContains s "/" = false ∧
      strContains s "\\" = false := by
  unfold containsInvalidParts
  by_cases h1 : strContains s ".." = true <;>
    by_cases h2 : strContains s "/" = true <;>
      by_cases h3 : strContains s "\\" = true <;>
        simp [h1, h2, h3]

/-- `domainNameValid` succeeds exactly on strings of at most 50 code
points free of the three bad substrings. -/
theorem domainNameValid_eq_none_iff (name : String) :
    domainNameValid name = none ↔
      strContains name ".." = false ∧ strContains name "/" = false ∧
      strContains name "\\" = false ∧ name.length ≤ 50 := by
  unfold domainNameValid
  cases hc : containsInvalidParts name with
  | some e =>
      simp only []
      constructor
      · intro h; cases h
      · rintro ⟨a, b, c, -⟩
        have := (containsInvalidParts_eq_none_iff name).mpr ⟨a, b, c⟩
        rw [hc] at this; cases this
  | none =>
      obtain ⟨a, b, c⟩ := (containsInvalidParts_eq_none_iff name).mp hc
      simp only [a, b, c, true_and]
      by_cases hl : name.length > 50
      · rw [if_pos hl]
        constructor
        · intro h; cases h
        · intro h; omega
      · rw [if_neg hl]
        simp only [true_iff]
        omega

/-- Deleting id `i` removes every row keyed `i`: filtering the remaining
rows for `i` gives nothing. -/
theorem filter_eq_nil_of_del {V : Type} (dt : List (Int × V)) (id : Int) :
    ((dt.filter fun p => !(p.1 == id)).filter fun p => p.1 == id) = [] := by
  induction dt with
  | nil => rfl
  | cons p rest ih =>
      obtain ⟨k, v⟩ := p
      by_cases h : k = id
      · simp [List.filter_cons, h, ih]
      · simp [List.filter_cons, h, ih]

/-- After deleting id `i`, a lookup of `i` in the remaining rows fails. -/
theorem lookupA_filter_del {V : Type} (l : List (Int × V)) (id : Int) :
    lookupA (l.filter fun p => !(p.1 == id)) id = none := by
  induction l with
  | nil => rfl
  | cons p rest ih =>
      obtain ⟨k, v⟩ := p
      by_cases h : k = id
      · simp [List.filter_cons, h, ih]
      · simp [List.filter_cons, h, lookupA, ih]

/-- Membership of `removeDir` in a background-task trace forces a
successful lookup and, when a backup directory is configured, a
successful archive step. -/
theorem backupDeleteTask_remove_mem {A : Type} (lookupRes : Except String A)
    (backupDir : String) (archiveErr : Option String)
    (h : TaskEvent.removeDir ∈ backupDeleteTask lookupRes backupDir archiveErr) :
    (∃ x, lookupRes = Except.ok x) ∧ (backupDir ≠ "" → archiveErr = none) := by
  cases lookupRes with
  | error e => simp [backupDeleteTask] at h
  | ok x =>
      refine ⟨⟨x, rfl⟩, ?_⟩
      intro hb
      cases archiveErr with
      | none => rfl
      | some e => simp [backupDeleteTask, hb] at h

/-! ## Claim theorems -/

/-- C1: For every HTTP request, the `LoginRequired` middleware invokes
the wrapped handler if and only if session validation succeeds; the
three auth-failure sentinels produce a 302 redirect to the login page
with no error and no handler invocation; any other validation error is
propagated without invoking the handler; and on success a failed
session save is only logged, the wrapped handler still executing. -/
theorem LoginRequired_gate (v : Except GoError Session) (saveErr : Option GoError) :
    ((∃ s b, LoginRequired v saveErr = MiddlewareResult.invokeHandler s b) ↔
        ∃ s, v = Except.ok s)
  ∧ (∀ e, v = Except.error e → isAuthFailure e = true →
      LoginRequired v saveErr = MiddlewareResult.redirect "/login" 302)
  ∧ (∀ e, v = Except.error e → isAuthFailure e = false →
      LoginRequired v saveErr = MiddlewareResult.internalError e)
  ∧ (∀ s, v = Except.ok s →
      ∃ s', LoginRequired v saveErr = MiddlewareResult.invokeHandler s' saveErr.isSome) := by
  refine ⟨?_, ?_, ?_, ?_⟩
  · constructor
    · intro hinv
      cases v with
      | error e =>
          exfalso
          obtain ⟨s, b, h⟩ := hinv
          by_cases hf : isAuthFailure e = true
          · simp [LoginRequired, hf] at h
          · simp [LoginRequired, hf] at h
      | ok s₀ => exact ⟨s₀, rfl⟩
    · rintro ⟨s, rfl⟩
      exact ⟨_, _, rfl⟩
  · rintro e rfl hf
    simp [LoginRequired, hf]
  · rintro e rfl hf
    simp [LoginRequired, hf]
  · rintro s rfl
    exact ⟨_, rfl⟩

/-- Witness for C1 at concrete inputs: a key-not-found failure
redirects, and a successful validation with a failing save still
invokes the wrapped handler. -/
theorem LoginRequired_gate_witness :
    LoginRequired (Except.error GoError.keyNotFound) none =
        MiddlewareResult.redirect "/login" 302
  ∧ ∃ s', LoginRequired
        (Except.ok { rememberMe := some (RememberVal.boolVal true), options := { maxAge := 7 } })
        (some (GoError.other "save failed")) =
      MiddlewareResult.invokeHandler s' true := by
  constructor
  · exact (LoginRequired_gate _ _).2.1 GoError.keyNotFound rfl rfl
  · exact (LoginRequired_gate _ _).2.2.2 _ rfl

/-- C2: A login request naming an unknown username (the
`goauth.ErrUserNotFound` sentinel) and one naming a known username with
a wrong password (the `goauth.NoUserID` sentinel) produce the same
observable response, a 400 with body `Login failed`, regardless of the
request bodies and of the session collaborator's results. -/
theorem CheckLogin_indistinguishable (d1 d2 : LoginData)
    (cs1 cs2 : Except String Session) (se1 se2 : Option String) :
    CheckLogin (some d1) ValidateOutcome.userNotFound cs1 se1 =
      CheckLogin (some d2) ValidateOutcome.noUser cs2 se2
  ∧ CheckLogin (some d1) ValidateOutcome.userNotFound cs1 se1 =
      LoginOutcome.httpError 400 "Login failed" :=
  ⟨rfl, rfl⟩

/-- C3: In the background backup/delete tasks spawned by `deleteDomain`
and `deleteMail`, the directory is only removed when the display-name
lookup succeeded and, when a backup directory is configured, the
archive step succeeded; a failed lookup produces no filesystem action
at all. -/
theorem backupDelete_order (backupDir : String) (archiveErr : Option String)
    (lookupD : Except String String) (lookupU : Except String (String × String))
    (dt : List (Int × String)) (ut : List (Int × VirtualUser)) (did uid : Int) :
    (TaskEvent.removeDir ∈ (deleteDomain true backupDir lookupD archiveErr dt did).2 →
        (∃ x, lookupD = Except.ok x) ∧ (backupDir ≠ "" → archiveErr = none))
  ∧ (∀ e, lookupD = Except.error e →
      (deleteDomain true backupDir lookupD archiveErr dt did).2 = [])
  ∧ (TaskEvent.removeDir ∈ (deleteMail true backupDir lookupU archiveErr ut uid).2 →
        (∃ x, lookupU = Except.ok x) ∧ (backupDir ≠ "" → archiveErr = none))
  ∧ (∀ e, lookupU = Except.error e →
      (deleteMail true backupDir lookupU archiveErr ut uid).2 = []) := by
  refine ⟨?_, ?_, ?_, ?_⟩
  · exact fun h => backupDeleteTask_remove_mem _ _ _ h
  · rintro e rfl; rfl
  · exact fun h => backupDeleteTask_remove_mem _ _ _ h
  · rintro e rfl; rfl

/-- Witness for C3 at concrete inputs: a failed lookup yields an empty
trace, and a removal in a concrete successful trace implies a nil
archive error. -/
theorem backupDelete_order_witness :
    (deleteDomain true "/backup/" (Except.error "lookup failed") none [] 1).2 = []
  ∧ (deleteMail true "/backup/" (Except.error "lookup failed") (some "boom") [] 2).2 = [] := by
  constructor
  · exact (backupDelete_order "/backup/" none (Except.error "lookup failed")
      (Except.error "x") [] [] 1 1).2.1 "lookup failed" rfl
  · exact (backupDelete_order "/backup/" (some "boom") (Except.error "y")
      (Except.error "lookup failed") [] [] 2 2).2.2.2 "lookup failed" rfl

/-- C4: the code evaluated at the failing input.  A fully valid
destination passes `emailValid`, the data-layer `AddAlias` validation
accepts the catch-all source `@spam.example.com`, yet the `addAlias`
handler answers 400 for that source even with the valid destination —
the 400 of the spec's scenario comes from the source check, and a
catch-all alias can never be created through the handler. -/
theorem addAlias_catchall_rejected :
    emailValid "dest@ok.example" = none
  ∧ AddAliasValidate "@spam.example.com" "dest@ok.example" = none
  ∧ addAlias (some { Source := "@spam.example.com", Dest := "dest@ok.example" }) =
      AddAliasOutcome.httpError 400 "Invalid Email address"
  ∧ addAlias (some { Source := "@spam.example.com", Dest := "notanemail" }) =
      AddAliasOutcome.httpError 400 "Invalid Email address" :=
  ⟨rfl, rfl, rfl, rfl⟩

/-- C5 counterexample: the empty domain name passes `domainNameValid`,
so `addDomain` on `{"domain-name": ""}` reaches the database write
instead of returning a 400 validation error. -/
theorem addDomain_empty_passes :
    domainNameValid "" = none ∧ addDomain (some "") = AddDomainOutcome.dbWrite "" :=
  ⟨rfl, rfl⟩

/-- C5 (amended): a domain name longer than 50 code points or containing
`..`, `/` or `\` is rejected with a 400 before any data-access call,
and a name of at most 50 code points free of those substrings — the
empty name included — passes the validation and reaches the write. -/
theorem addDomain_validation (name : String) :
    ((50 < name.length ∨ strContains name ".." = true ∨ strContains name "/" = true ∨
        strContains name "\\" = true) →
      ∃ msg, addDomain (some name) = AddDomainOutcome.httpError 400 msg)
  ∧ (name.length ≤ 50 → strContains name ".." = false → strContains name "/" = false →
      strContains name "\\" = false →
      addDomain (some name) = AddDomainOutcome.dbWrite name) := by
  constructor
  · intro h
    cases hm : domainNameValid name with
    | some m => exact ⟨m, by simp [addDomain, hm]⟩
    | none =>
        obtain ⟨a, b, c, d⟩ := (domainNameValid_eq_none_iff name).mp hm
        rcases h with h | h | h | h
        · omega
        · rw [h] at a; cases a
        · rw [h] at b; cases b
        · rw [h] at c; cases c
  · intro h1 h2 h3 h4
    have hm : domainNameValid name = none :=
      (domainNameValid_eq_none_iff name).mpr ⟨h2, h3, h4, h1⟩
    simp [addDomain, hm]

/-- Witness for C5's amended theorem at concrete inputs: a 51 code point
name is rejected, `example.com` passes. -/
theorem addDomain_validation_witness :
    (∃ msg, addDomain (some "aaaaaaaaaaaaaaaaaaaaaaaaaaaaaaaaaaaaaaaaaaaaaaaaaaa") =
        AddDomainOutcome.httpError 400 msg)
  ∧ addDomain (some "example.com") = AddDomainOutcome.dbWrite "example.com" := by
  constructor
  · exact (addDomain_validation "aaaaaaaaaaaaaaaaaaaaaaaaaaaaaaaaaaaaaaaaaaaaaaaaaaa").1
      (Or.inl (by decide))
  · exact (addDomain_validation "example.com").2 (by decide) (by decide) (by decide) (by decide)

/-- C7: the aggregation `ListAllUsers` surfaces the mailbox-listing
error when that sub-task failed, surfaces the alias-listing error when
only that one failed, and produces a merged map only when both
sub-tasks succeeded — an error always comes with no partial map. -/
theorem ListAllUsers_error_join (u : Except String (List (Int × VirtualUser)))
    (a : Except String (List (Int × Alias))) :
    (∀ e, u = Except.error e → ListAllUsers u a = Except.error e)
  ∧ (∀ e users, u = Except.ok users → a = Except.error e →
      ListAllUsers u a = Except.error e)
  ∧ (∀ res, ListAllUsers u a = Except.ok res →
      (∃ users, u = Except.ok users) ∧ ∃ aliases, a = Except.ok aliases) := by
  refine ⟨?_, ?_, ?_⟩
  · rintro e rfl; rfl
  · rintro e users rfl rfl; rfl
  · intro res h
    cases u with
    | error e => simp [ListAllUsers] at h
    | ok users =>
        cases a with
        | error e => simp [ListAllUsers] at h
        | ok aliases => exact ⟨⟨users, rfl⟩, aliases, rfl⟩

/-- Witness for C7 at concrete inputs: a failing users query and a
failing alias query each poison the aggregate. -/
theorem ListAllUsers_error_join_witness :
    ListAllUsers (Except.error "users query failed") (Except.ok ([] : List (Int × Alias))) =
      Except.error "users query failed"
  ∧ ListAllUsers (Except.ok ([] : List (Int × VirtualUser)))
      (Except.error "alias query failed") = Except.error "alias query failed" := by
  constructor
  · exact (ListAllUsers_error_join _ _).1 "users query failed" rfl
  · exact (ListAllUsers_error_join _ _).2.1 "alias query failed" [] rfl rfl

/-- C8: when the source directory does not exist (`os.Stat` fails),
`writeZip` reports success having written nothing, and `zipToFile`
succeeds with zero archive entries (only the zero-length destination
file from `os.Create` exists); in the delete-user scenario with the
delete policy on and a backup directory configured, the handler's row
delete succeeds, the deleted id is gone from the table, and the
background task archives nothing and proceeds. -/
theorem writeZip_missing_source (walk : Except String (List ZipEntry))
    (ut : List (Int × VirtualUser)) (uid : Int) (m d : String) :
    writeZip none walk = ([], none)
  ∧ zipToFile true none walk true = { destCreated := true, entries := [], err := none }
  ∧ (deleteMail true "/backup/" (Except.ok (m, d)) (zipToFile true none walk true).err
      ut uid).1.err = none
  ∧ (deleteMail true "/backup/" (Except.ok (m, d)) (zipToFile true none walk true).err
      ut uid).2 = [TaskEvent.archive, TaskEvent.removeDir]
  ∧ lookupA (DelMailUser ut uid).table uid = none := by
  refine ⟨rfl, rfl, rfl, rfl, ?_⟩
  simpa [DelMailUser, execDelete] using lookupA_filter_del ut uid

/-- C10: the data-layer deletes return success whatever the id: a
missing id only sets the warning, a second delete of the same id also
succeeds (and warns, the row being gone), for domains, mail users and
aliases alike. -/
theorem delete_absent_id_success (dt : List (Int × String))
    (ut : List (Int × VirtualUser)) (alt : List (Int × Alias)) (id : Int) :
    (DeleteVirtualDomain dt id).err = none
  ∧ (DelMailUser ut id).err = none
  ∧ (DelAlias alt id).err = none
  ∧ (DeleteVirtualDomain (DeleteVirtualDomain dt id).table id).err = none
  ∧ (DeleteVirtualDomain (DeleteVirtualDomain dt id).table id).warned = true
  ∧ ((∀ v, (id, v) ∉ dt) → (DeleteVirtualDomain dt id).warned = true) := by
  refine ⟨rfl, rfl, rfl, rfl, ?_, ?_⟩
  · simp [DeleteVirtualDomain, execDelete, filter_eq_nil_of_del]
  · intro habs
    have hnil : dt.filter (fun p => p.1 == id) = [] := by
      rw [List.filter_eq_nil_iff]
      rintro ⟨k, v⟩ hp
      simp only [beq_iff_eq]
      rintro rfl
      exact habs v hp
    simp [DeleteVirtualDomain, execDelete, hnil]

/-- Witness for C10 at a concrete input: deleting id 5 from a
single-row table keyed 1 succeeds and warns. -/
theorem delete_absent_id_success_witness :
    (DeleteVirtualDomain [(1, "example.com")] 5).warned = true :=
  (delete_absent_id_success [(1, "example.com")] [] [] 5).2.2.2.2.2
    (by intro v hv; simp at hv)

/-! ## The mail regexp characterized -/

/-- A single-character pattern occurs in a list exactly when the
character is a member. -/
theorem containsSeq_singleton (l : List Char) (a : Char) :
    containsSeq l [a] = true ↔ a ∈ l := by
  induction l with
  | nil => simp [containsSeq]
  | cons c rest ih => simp [containsSeq, startsWithSeq, ih]

/-- Soundness of the domain matcher: a match decomposes the list into a
non-empty `isDomChar` label, a dot and a non-empty `isDomDotChar`
tail. -/
theorem matchDomainChars_decomp {l : List Char} (h : matchDomainChars l = true) :
    ∃ d1 d2, l = d1 ++ '.' :: d2 ∧ d1 ≠ [] ∧ d2 ≠ [] ∧
      (∀ c ∈ d1, isDomChar c = true) ∧ ∀ c ∈ d2, isDomDotChar c = true := by
  unfold matchDomainChars at h
  split at h
  next d2 heq =>
    rw [Bool.and_eq_true, Bool.and_eq_true] at h
    obtain ⟨⟨h1, h2⟩, h3⟩ := h
    refine ⟨l.takeWhile isDomChar, d2, ?_, ?_, ?_, ?_, ?_⟩
    · conv_lhs => rw [← List.takeWhile_append_dropWhile isDomChar l]
      rw [heq]
    · intro hnil; rw [hnil] at h1; exact absurd h1 (by decide)
    · intro hnil; rw [hnil] at h2; exact absurd h2 (by decide)
    · intro c hc; exact List.mem_takeWhile_imp hc
    · intro c hc; exact List.all_eq_true.mp h3 c hc
  next => exact absurd h (by decide)

/-- Soundness of the mail matcher: a match decomposes the list into a
non-empty local part, an at sign and the domain decomposition. -/
theorem matchMailChars_decomp {l : List Char} (h : matchMailChars l = true) :
    ∃ loc d1 d2, l = loc ++ '@' :: (d1 ++ '.' :: d2) ∧ loc ≠ [] ∧ d1 ≠ [] ∧ d2 ≠ [] ∧
      (∀ c ∈ loc, isLocalChar c = true) ∧ (∀ c ∈ d1, isDomChar c = true) ∧
      ∀ c ∈ d2, isDomDotChar c = true := by
  unfold matchMailChars at h
  split at h
  next domain heq =>
    rw [Bool.and_eq_true] at h
    obtain ⟨h1, h2⟩ := h
    obtain ⟨d1, d2, hdom, hd1, hd2, hmem1, hmem2⟩ := matchDomainChars_decomp h2
    refine ⟨l.takeWhile isLocalChar, d1, d2, ?_, ?_, hd1, hd2, ?_, hmem1, hmem2⟩
    · conv_lhs => rw [← List.takeWhile_append_dropWhile isLocalChar l]
      rw [heq, hdom]
    · intro hnil; rw [hnil] at h1; exact absurd h1 (by decide)
    · intro c hc; exact List.mem_takeWhile_imp hc
  next => exact absurd h (by decide)

/-- No character of the local class is a slash, a backslash or an at
sign. -/
theorem isLocalChar_excl {c : Char} (h : isLocalChar c = true) :
    c ≠ '/' ∧ c ≠ '\\' ∧ c ≠ '@' := by
  refine ⟨?_, ?_, ?_⟩ <;> rintro rfl <;> exact absurd h (by decide)

/-- No character of the first domain class is a slash, a backslash, an
at sign or a dot. -/
theorem isDomChar_excl {c : Char} (h : isDomChar c = true) :
    c ≠ '/' ∧ c ≠ '\\' ∧ c ≠ '@' ∧ c ≠ '.' := by
  refine ⟨?_, ?_, ?_, ?_⟩ <;> rintro rfl <;> exact absurd h (by decide)

/-- No character of the dotted domain class is a slash, a backslash or
an at sign. -/
theorem isDomDotChar_excl {c : Char} (h : isDomDotChar c = true) :
    c ≠ '/' ∧ c ≠ '\\' ∧ c ≠ '@' := by
  refine ⟨?_, ?_, ?_⟩ <;> rintro rfl <;> exact absurd h (by decide)

/-- Consequences of a regexp match used below: no slash or backslash
occurs, an at sign occurs, and the string splits at a unique at sign
whose right side contains a dot. -/
theorem matchMail_chars_safe {s : String} (h : mailRegexpMatch s = true) :
    (∀ c ∈ s.data, c ≠ '/' ∧ c ≠ '\\') ∧ '@' ∈ s.data ∧
      ∃ loc dom, s.data = loc ++ '@' :: dom ∧ '@' ∉ loc ∧ '@' ∉ dom ∧ '.' ∈ dom := by
  obtain ⟨loc, d1, d2, heq, -, -, -, hloc, hd1, hd2⟩ := matchMailChars_decomp h
  refine ⟨?_, ?_, loc, d1 ++ '.' :: d2, heq, ?_, ?_, ?_⟩
  · intro c hc
    rw [heq] at hc
    rcases List.mem_append.mp hc with hc | hc
    · exact ⟨(isLocalChar_excl (hloc c hc)).1, (isLocalChar_excl (hloc c hc)).2.1⟩
    · rcases List.mem_cons.mp hc with rfl | hc
      · exact ⟨by decide, by decide⟩
      · rcases List.mem_append.mp hc with hc | hc
        · exact ⟨(isDomChar_excl (hd1 c hc)).1, (isDomChar_excl (hd1 c hc)).2.1⟩
        · rcases List.mem_cons.mp hc with rfl | hc
          · exact ⟨by decide, by decide⟩
          · exact ⟨(isDomDotChar_excl (hd2 c hc)).1, (isDomDotChar_excl (hd2 c hc)).2.1⟩
  · rw [heq]; exact List.mem_append_right _ (List.mem_cons_self _ _)
  · intro hm; exact (isLocalChar_excl (hloc _ hm)).2.2 rfl
  · intro hm
    rcases List.mem_append.mp hm with hm | hm
    · exact (isDomChar_excl (hd1 _ hm)).2.2.1 rfl
    · rcases List.mem_cons.mp hm with he | hm
      · exact absurd he (by decide)
      · exact (isDomDotChar_excl (hd2 _ hm)).2.2 rfl
  · exact List.mem_append_right _ (List.mem_cons_self _ _)

/-- Splitting a list at an element absent from both prefixes is
unambiguous. -/
theorem append_cons_inj {a : Char} : ∀ (xs zs ys ws : List Char), a ∉ xs → a ∉ zs →
    xs ++ a :: ys = zs ++ a :: ws → xs = zs ∧ ys = ws := by
  intro xs
  induction xs with
  | nil =>
      intro zs ys ws _ hz h
      cases zs with
      | nil => simpa using h
      | cons z zs' =>
          simp only [List.nil_append, List.cons_append, List.cons.injEq] at h
          exact absurd (by rw [h.1]; exact List.mem_cons_self z zs') hz
  | cons x xs' ih =>
      intro zs ys ws hx hz h
      cases zs with
      | nil =>
          simp only [List.nil_append, List.cons_append, List.cons.injEq] at h
          exact absurd (by rw [← h.1]; exact List.mem_cons_self x xs') hx
      | cons z zs' =>
          simp only [List.cons_append, List.cons.injEq] at h
          obtain ⟨hxz, hrest⟩ := h
          have hx' : a ∉ xs' := fun hm => hx (List.mem_cons_of_mem _ hm)
          have hz' : a ∉ zs' := fun hm => hz (List.mem_cons_of_mem _ hm)
          obtain ⟨h1, h2⟩ := ih zs' ys ws hx' hz' hrest
          exact ⟨by rw [hxz, h1], h2⟩

/-- C6 counterexample: `a@b..c` is under 100 code points and matches
the simplified mailbox pattern (local part, at sign, domain with a
dot), yet `emailValid` rejects it, because `containsInvalidParts` runs
first and the string contains `..`. -/
theorem emailValid_pattern_counterexample :
    mailRegexpMatch "a@b..c" = true
  ∧ ("a@b..c" : String).length < 100
  ∧ emailValid "a@b..c" = some invalidPartsMsg := by
  refine ⟨by decide, by decide, by decide⟩

/-- C6 (amended): a string under 100 code points matching the mail
regexp and not containing the substring `..` passes `emailValid` (the
other path-unsafe substrings cannot occur in a match); a string with no
at sign, or whose part after the at sign has no dot, fails. -/
theorem emailValid_pattern (s : String) :
    (mailRegexpMatch s = true → s.length < 100 → containsSeq s.data ['.', '.'] = false →
      emailValid s = none)
  ∧ ('@' ∉ s.data → emailValid s ≠ none)
  ∧ (∀ loc dom, s.data = loc ++ '@' :: dom → '.' ∉ dom → emailValid s ≠ none) := by
  refine ⟨?_, ?_, ?_⟩
  · intro hm hlen hdd
    have hsafe := matchMail_chars_safe hm
    have h1 : strContains s ".." = false := by
      unfold strContains
      rw [show (".." : String).data = ['.', '.'] from rfl]
      exact hdd
    have h2 : strContains s "/" = false := by
      unfold strContains
      rw [show ("/" : String).data = ['/'] from rfl]
      cases hcs : containsSeq s.data ['/'] with
      | false => rfl
      | true => exact absurd rfl (hsafe.1 _ ((containsSeq_singleton _ _).mp hcs)).1
    have h3 : strContains s "\\" = false := by
      unfold strContains
      rw [show ("\\" : String).data = ['\\'] from rfl]
      cases hcs : containsSeq s.data ['\\'] with
      | false => rfl
      | true => exact absurd rfl (hsafe.1 _ ((containsSeq_singleton _ _).mp hcs)).2
    have hinv : containsInvalidParts s = none :=
      (containsInvalidParts_eq_none_iff s).mpr ⟨h1, h2, h3⟩
    have hlen' : ¬s.length > 100 := by omega
    simp [emailValid, hinv, hm, hlen']
  · intro hat
    cases hc : containsInvalidParts s with
    | some e => simp [emailValid, hc]
    | none =>
        cases hmm : mailRegexpMatch s with
        | true => exact absurd (matchMail_chars_safe hmm).2.1 hat
        | false => simp [emailValid, hc, hmm]
  · intro loc dom hsplit hdot
    cases hc : containsInvalidParts s with
    | some e => simp [emailValid, hc]
    | none =>
        cases hmm : mailRegexpMatch s with
        | false => simp [emailValid, hc, hmm]
        | true =>
            obtain ⟨-, -, loc', dom', heq', hnl', hnd', hdotm⟩ := matchMail_chars_safe hmm
            have hcount : List.count '@' s.data = 1 := by
              rw [heq', List.count_append, List.count_cons_self,
                List.count_eq_zero.mpr hnl', List.count_eq_zero.mpr hnd']
            have hcount2 : List.count '@' loc + (List.count '@' dom + 1) = 1 := by
              have hc2 := hcount
              rw [hsplit, List.count_append, List.count_cons_self] at hc2
              exact hc2
            have hnloc : '@' ∉ loc :=
              List.count_eq_zero.mp (by omega)
            obtain ⟨-, hdomeq⟩ :=
              append_cons_inj loc loc' dom dom' hnloc hnl' (by rw [← hsplit, heq'])
            rw [hdomeq] at hdot
            exact absurd hdotm hdot

/-- Witness for C6's amended theorem at concrete inputs: a well-formed
address passes, a string without an at sign fails, and an address
without a domain dot fails. -/
theorem emailValid_pattern_witness :
    emailValid "user@example.com" = none
  ∧ emailValid "nodomain" ≠ none
  ∧ emailValid "user@nodot" ≠ none := by
  refine ⟨?_, ?_, ?_⟩
  · exact (emailValid_pattern "user@example.com").1 (by decide) (by decide) (by decide)
  · exact (emailValid_pattern "nodomain").2.1 (by decide)
  · exact (emailValid_pattern "user@nodot").2.2 "user".data "nodot".data (by decide) (by decide)

/-! ## Association list lemmas -/

/-- Looking up the key just assigned gives the new value. -/
theorem lookupA_setA_self {K V : Type} [DecidableEq K] (l : List (K × V)) (k : K) (v : V) :
    lookupA (setA l k v) k = some v := by
  induction l with
  | nil => simp [setA, lookupA]
  | cons p rest ih =>
      obtain ⟨k', v'⟩ := p
      by_cases h : k' = k
      · simp [setA, h, lookupA]
      · simp [setA, h, lookupA, ih]

/-- Assigning one key leaves the lookup of any other key unchanged. -/
theorem lookupA_setA_ne {K V : Type} [DecidableEq K] (l : List (K × V)) (k k' : K) (v : V)
    (h : k' ≠ k) : lookupA (setA l k v) k' = lookupA l k' := by
  induction l with
  | nil => simp [setA, lookupA, Ne.symm h]
  | cons p rest ih =>
      obtain ⟨k0, v0⟩ := p
      by_cases h0 : k0 = k
      · subst h0; simp [setA, lookupA, Ne.symm h]
      · by_cases h1 : k0 = k'
        · simp [setA, h0, lookupA, h1, h]
        · simp [setA, h0, lookupA, h1, ih]

/-- Entries of the user map come from the accumulator or from a user
row whose mail is the key. -/
theorem buildUserMapAux_entry :
    ∀ (users : List (Int × VirtualUser)) (acc : List (String × ListUserResult))
      (key : String) (entry : ListUserResult),
      lookupA (buildUserMapAux acc users) key = some entry →
      lookupA acc key = some entry ∨
        ∃ uid u, (uid, u) ∈ users ∧ u.Mail = key ∧
          entry = NewListResultForVirtualUser u uid := by
  intro users
  induction users with
  | nil => intro acc key entry h; exact Or.inl h
  | cons p rest ih =>
      intro acc key entry h
      obtain ⟨uid, u⟩ := p
      rcases ih _ key entry h with h' | ⟨uid', u', hm, hmail, hentry⟩
      · by_cases hk : u.Mail = key
        · subst hk
          rw [lookupA_setA_self] at h'
          exact Or.inr ⟨uid, u, List.mem_cons_self _ _, rfl, (Option.some.inj h').symm⟩
        · rw [lookupA_setA_ne _ _ _ _ (Ne.symm hk)] at h'
          exact Or.inl h'
      · exact Or.inr ⟨uid', u', List.mem_cons_of_mem _ hm, hmail, hentry⟩

/-- When no user row carries the key as mail, the user map does not
bind the key beyond the accumulator. -/
theorem buildUserMapAux_not_mem :
    ∀ (users : List (Int × VirtualUser)) (acc : List (String × ListUserResult))
      (key : String),
      (∀ uid u, (uid, u) ∈ users → u.Mail ≠ key) →
      lookupA (buildUserMapAux acc users) key = lookupA acc key := by
  intro users
  induction users with
  | nil => intro acc key _; rfl
  | cons p rest ih =>
      intro acc key hno
      obtain ⟨uid, u⟩ := p
      have h1 : u.Mail ≠ key := hno uid u (List.mem_cons_self _ _)
      rw [show buildUserMapAux acc ((uid, u) :: rest) =
          buildUserMapAux (setA acc u.Mail (NewListResultForVirtualUser u uid)) rest from rfl]
      rw [ih _ key fun uid' u' hm => hno uid' u' (List.mem_cons_of_mem _ hm)]
      exact lookupA_setA_ne _ _ _ _ (Ne.symm h1)

/-- Every entry of the user map built from an accumulator of alias-free
entries is alias-free. -/
theorem buildUserMapAux_aliasFor :
    ∀ (users : List (Int × VirtualUser)) (acc : List (String × ListUserResult)),
      (∀ k e, lookupA acc k = some e → e.aliasFor = []) →
      ∀ key entry, lookupA (buildUserMapAux acc users) key = some entry →
        entry.aliasFor = [] := by
  intro users
  induction users with
  | nil => intro acc hacc key entry h; exact hacc key entry h
  | cons p rest ih =>
      intro acc hacc key entry h
      obtain ⟨uid, u⟩ := p
      refine ih _ ?_ key entry h
      intro k e hk
      by_cases hke : u.Mail = k
      · subst hke
        rw [lookupA_setA_self] at hk
        rw [← Option.some.inj hk]
        rfl
      · rw [lookupA_setA_ne _ _ _ _ (Ne.symm hke)] at hk
        exact hacc k e hk

/-- Applying one alias preserves the attachment invariant, extending
the provenance list by that alias: every attached alias sits under its
own source key, came from the processed list, and has a non-empty local
part. -/
theorem applyAlias_sound {m m' : List (String × ListUserResult)} {aid : Int} {al : Alias}
    {seen : List (Int × Alias)}
    (h : applyAlias m aid al = Except.ok m')
    (hs : ∀ key entry, lookupA m key = some entry →
      ∀ aid0 al0, lookupA entry.aliasFor aid0 = some al0 →
        al0.Source = key ∧ (aid0, al0) ∈ seen ∧
        ∃ nm dm, ParseMailParts al0.Source = Except.ok (nm, dm) ∧ nm ≠ "") :
    ∀ key entry, lookupA m' key = some entry →
      ∀ aid0 al0, lookupA entry.aliasFor aid0 = some al0 →
        al0.Source = key ∧ (aid0, al0) ∈ (aid, al) :: seen ∧
        ∃ nm dm, ParseMailParts al0.Source = Except.ok (nm, dm) ∧ nm ≠ "" := by
  unfold applyAlias at h
  split at h
  next e heq => cases h
  next nm dm heq =>
    by_cases hname : nm = ""
    · rw [if_pos hname] at h
      obtain rfl := Except.ok.inj h
      intro key entry hk aid0 al0 ha0
      obtain ⟨h1, h2, h3⟩ := hs key entry hk aid0 al0 ha0
      exact ⟨h1, List.mem_cons_of_mem _ h2, h3⟩
    · rw [if_neg hname] at h
      split at h
      next base hbase =>
        obtain rfl := Except.ok.inj h
        intro key entry hk aid0 al0 ha0
        by_cases hkey : al.Source = key
        · subst hkey
          rw [lookupA_setA_self] at hk
          obtain rfl := Option.some.inj hk
          dsimp only at ha0
          by_cases haid : aid = aid0
          · subst haid
            rw [lookupA_setA_self] at ha0
            obtain rfl := Option.some.inj ha0
            exact ⟨rfl, List.mem_cons_self _ _, nm, dm, heq, hname⟩
          · rw [lookupA_setA_ne _ _ _ _ (Ne.symm haid)] at ha0
            obtain ⟨h1, h2, h3⟩ := hs al.Source base hbase aid0 al0 ha0
            exact ⟨h1, List.mem_cons_of_mem _ h2, h3⟩
        · rw [lookupA_setA_ne _ _ _ _ (Ne.symm hkey)] at hk
          obtain ⟨h1, h2, h3⟩ := hs key entry hk aid0 al0 ha0
          exact ⟨h1, List.mem_cons_of_mem _ h2, h3⟩
      next hbase =>
        obtain rfl := Except.ok.inj h
        intro key entry hk aid0 al0 ha0
        by_cases hkey : al.Source = key
        · subst hkey
          rw [lookupA_setA_self] at hk
          obtain rfl := Option.some.inj hk
          dsimp only [NewListResultForVirtualAlias] at ha0
          by_cases haid : aid = aid0
          · subst haid
            rw [lookupA_setA_self] at ha0
            obtain rfl := Option.some.inj ha0
            exact ⟨rfl, List.mem_cons_self _ _, nm, dm, heq, hname⟩
          · rw [lookupA_setA_ne _ _ _ _ (Ne.symm haid)] at ha0
            cases ha0
        · rw [lookupA_setA_ne _ _ _ _ (Ne.symm hkey)] at hk
          obtain ⟨h1, h2, h3⟩ := hs key entry hk aid0 al0 ha0
          exact ⟨h1, List.mem_cons_of_mem _ h2, h3⟩

/-- Applying a non-catch-all alias attaches it under its source key. -/
theorem applyAlias_attach {m m' : List (String × ListUserResult)} {aid : Int} {al : Alias}
    {nm dm : String}
    (h : applyAlias m aid al = Except.ok m')
    (hp : ParseMailParts al.Source = Except.ok (nm, dm)) (hnm : nm ≠ "") :
    ∃ entry, lookupA m' al.Source = some entry ∧
      lookupA entry.aliasFor aid = some al := by
  unfold applyAlias at h
  rw [hp] at h
  dsimp only at h
  rw [if_neg hnm] at h
  split at h
  next base hbase =>
    obtain rfl := Except.ok.inj h
    refine ⟨_, lookupA_setA_self _ _ _, ?_⟩
    dsimp only
    exact lookupA_setA_self _ _ _
  next hbase =>
    obtain rfl := Except.ok.inj h
    refine ⟨_, lookupA_setA_self _ _ _, ?_⟩
    dsimp only
    exact lookupA_setA_self _ _ _

/-- Applying an alias with a different id preserves any existing
attachment. -/
theorem applyAlias_preserve {m m' : List (String × ListUserResult)} {aid' aid : Int}
    {al' al : Alias} {k : String} {entry : ListUserResult}
    (h : applyAlias m aid' al' = Except.ok m') (hne : aid' ≠ aid)
    (hk : lookupA m k = some entry) (ha : lookupA entry.aliasFor aid = some al) :
    ∃ entry', lookupA m' k = some entry' ∧ lookupA entry'.aliasFor aid = some al := by
  unfold applyAlias at h
  split at h
  next e heq => cases h
  next nm dm heq =>
    by_cases hname : nm = ""
    · rw [if_pos hname] at h
      obtain rfl := Except.ok.inj h
      exact ⟨entry, hk, ha⟩
    · rw [if_neg hname] at h
      split at h
      next base hbase =>
        obtain rfl := Except.ok.inj h
        by_cases hkey : al'.Source = k
        · subst hkey
          obtain rfl := Option.some.inj (hbase.symm.trans hk)
          refine ⟨_, lookupA_setA_self _ _ _, ?_⟩
          dsimp only
          rw [lookupA_setA_ne _ _ _ _ (Ne.symm hne)]
          exact ha
        · rw [lookupA_setA_ne _ _ _ _ (Ne.symm hkey)]
          exact ⟨entry, hk, ha⟩
      next hbase =>
        obtain rfl := Except.ok.inj h
        by_cases hkey : al'.Source = k
        · subst hkey
          rw [hk] at hbase
          cases hbase
        · rw [lookupA_setA_ne _ _ _ _ (Ne.symm hkey)]
          exact ⟨entry, hk, ha⟩

/-- Applying an alias either keeps an entry's mailbox fields or creates
a synthetic entry (no mailbox, id -1). -/
theorem applyAlias_user_fields {m m' : List (String × ListUserResult)} {aid : Int}
    {al : Alias}
    (h : applyAlias m aid al = Except.ok m') :
    ∀ k e', lookupA m' k = some e' →
      (∃ e, lookupA m k = some e ∧ e'.virtualUser = e.virtualUser ∧
        e'.virtualUserID = e.virtualUserID)
      ∨ (e'.virtualUser = none ∧ e'.virtualUserID = -1) := by
  unfold applyAlias at h
  split at h
  next e heq => cases h
  next nm dm heq =>
    by_cases hname : nm = ""
    · rw [if_pos hname] at h
      obtain rfl := Except.ok.inj h
      intro k e' hk
      exact Or.inl ⟨e', hk, rfl, rfl⟩
    · rw [if_neg hname] at h
      split at h
      next base hbase =>
        obtain rfl := Except.ok.inj h
        intro k e' hk
        by_cases hkey : al.Source = k
        · subst hkey
          rw [lookupA_setA_self] at hk
          obtain rfl := Option.some.inj hk
          exact Or.inl ⟨base, hbase, rfl, rfl⟩
        · rw [lookupA_setA_ne _ _ _ _ (Ne.symm hkey)] at hk
          exact Or.inl ⟨e', hk, rfl, rfl⟩
      next hbase =>
        obtain rfl := Except.ok.inj h
        intro k e' hk
        by_cases hkey : al.Source = k
        · subst hkey
          rw [lookupA_setA_self] at hk
          obtain rfl := Option.some.inj hk
          exact Or.inr ⟨rfl, rfl⟩
        · rw [lookupA_setA_ne _ _ _ _ (Ne.symm hkey)] at hk
          exact Or.inl ⟨e', hk, rfl, rfl⟩

/-- The merge loop preserves the attachment invariant, the provenance
growing by the processed aliases. -/
theorem mergeAliases_sound :
    ∀ (aliases : List (Int × Alias)) (m res : List (String × ListUserResult))
      (seen : List (Int × Alias)),
      mergeAliases m aliases = Except.ok res →
      (∀ key entry, lookupA m key = some entry →
        ∀ aid0 al0, lookupA entry.aliasFor aid0 = some al0 →
          al0.Source = key ∧ (aid0, al0) ∈ seen ∧
          ∃ nm dm, ParseMailParts al0.Source = Except.ok (nm, dm) ∧ nm ≠ "") →
      ∀ key entry, lookupA res key = some entry →
        ∀ aid0 al0, lookupA entry.aliasFor aid0 = some al0 →
          al0.Source = key ∧ (aid0, al0) ∈ aliases ++ seen ∧
          ∃ nm dm, ParseMailParts al0.Source = Except.ok (nm, dm) ∧ nm ≠ "" := by
  intro aliases
  induction aliases with
  | nil =>
      intro m res seen h hs
      obtain rfl := Except.ok.inj h
      intro key entry hk aid0 al0 ha0
      obtain ⟨h1, h2, h3⟩ := hs key entry hk aid0 al0 ha0
      exact ⟨h1, by simpa using h2, h3⟩
  | cons p rest ih =>
      intro m res seen h hs
      obtain ⟨aid, al⟩ := p
      unfold mergeAliases at h
      split at h
      next e heq => cases h
      next m1 heq =>
        intro key entry hk aid0 al0 ha0
        obtain ⟨h1, h2, h3⟩ :=
          ih m1 res ((aid, al) :: seen) h (applyAlias_sound heq hs) key entry hk aid0 al0 ha0
        refine ⟨h1, ?_, h3⟩
        simp only [List.mem_append, List.mem_cons] at h2 ⊢
        tauto

/-- The merge loop preserves an existing attachment when the processed
aliases all have other ids. -/
theorem mergeAliases_preserve :
    ∀ (rest : List (Int × Alias)) (m res : List (String × ListUserResult))
      (aid : Int) (al : Alias) (k : String),
      mergeAliases m rest = Except.ok res →
      aid ∉ rest.map Prod.fst →
      (∃ e, lookupA m k = some e ∧ lookupA e.aliasFor aid = some al) →
      ∃ e, lookupA res k = some e ∧ lookupA e.aliasFor aid = some al := by
  intro rest
  induction rest with
  | nil =>
      intro m res aid al k h _ he
      obtain rfl := Except.ok.inj h
      exact he
  | cons p rest' ih =>
      intro m res aid al k h hid he
      obtain ⟨aid', al'⟩ := p
      unfold mergeAliases at h
      split at h
      next e heq => cases h
      next m1 heq =>
        simp only [List.map_cons, List.mem_cons] at hid
        obtain ⟨e, he1, he2⟩ := he
        have hne : aid' ≠ aid := fun hh => hid (Or.inl hh.symm)
        exact ih m1 res aid al k h (fun hh => hid (Or.inr hh))
          (applyAlias_preserve heq hne he1 he2)

/-- The merge loop attaches every processed non-catch-all alias under
its source key, provided the alias ids are distinct (they are keys of a
Go map). -/
theorem mergeAliases_complete :
    ∀ (aliases : List (Int × Alias)) (m res : List (String × ListUserResult)),
      mergeAliases m aliases = Except.ok res →
      (aliases.map Prod.fst).Nodup →
      ∀ aid al, (aid, al) ∈ aliases →
        ∀ nm dm, ParseMailParts al.Source = Except.ok (nm, dm) → nm ≠ "" →
        ∃ entry, lookupA res al.Source = some entry ∧
          lookupA entry.aliasFor aid = some al := by
  intro aliases
  induction aliases with
  | nil =>
      intro m res _ _ aid al hm
      cases hm
  | cons p rest ih =>
      intro m res h hnd aid al hm nm dm hp hnm
      obtain ⟨aid', al'⟩ := p
      unfold mergeAliases at h
      split at h
      next e heq => cases h
      next m1 heq =>
        simp only [List.map_cons, List.nodup_cons] at hnd
        rcases List.mem_cons.mp hm with hm | hm
        · obtain ⟨h1, h2⟩ := Prod.mk.injEq .. ▸ hm
          subst h1
          subst h2
          have hatt := applyAlias_attach heq hp hnm
          exact mergeAliases_preserve rest m1 res aid al al.Source h hnd.1 hatt
        · exact ih m1 res h hnd.2 aid al hm nm dm hp hnm

/-- The merge loop either keeps an entry's mailbox fields from its
input map or produces a synthetic entry. -/
theorem mergeAliases_user_fields :
    ∀ (aliases : List (Int × Alias)) (m res : List (String × ListUserResult)),
      mergeAliases m aliases = Except.ok res →
      ∀ k e', lookupA res k = some e' →
        (∃ e, lookupA m k = some e ∧ e'.virtualUser = e.virtualUser ∧
          e'.virtualUserID = e.virtualUserID)
        ∨ (e'.virtualUser = none ∧ e'.virtualUserID = -1) := by
  intro aliases
  induction aliases with
  | nil =>
      intro m res h k e' hk
      obtain rfl := Except.ok.inj h
      exact Or.inl ⟨e', hk, rfl, rfl⟩
  | cons p rest ih =>
      intro m res h k e' hk
      obtain ⟨aid, al⟩ := p
      unfold mergeAliases at h
      split at h
      next e heq => cases h
      next m1 heq =>
        rcases ih m1 res h k e' hk with ⟨e1, he1, hu1, hi1⟩ | hsyn
        · rcases applyAlias_user_fields heq k e1 he1 with ⟨e0, he0, hu0, hi0⟩ | hsyn0
          · exact Or.inl ⟨e0, he0, hu1.trans hu0, hi1.trans hi0⟩
          · exact Or.inr ⟨hu1.trans hsyn0.1, hi1.trans hsyn0.2⟩
        · exact Or.inr hsyn

/-- C9 counterexample: one mailbox `a@d.co` and one alias
`b@d.co -> a@d.co`.  The alias's destination is the mailbox's address,
yet the merged map leaves the mailbox entry with no attached aliases
and files the alias under its source `b@d.co` as a synthetic entry:
aliases are grouped by source, not by destination. -/
theorem ListAllUsers_dest_counterexample :
    ({ DomainID := 1, Source := "b@d.co", Dest := "a@d.co" } : Alias).Dest = "a@d.co"
  ∧ ListAllUsers (Except.ok [(1, { DomainID := 1, Mail := "a@d.co" })])
      (Except.ok [(7, { DomainID := 1, Source := "b@d.co", Dest := "a@d.co" })]) =
    Except.ok
      [("a@d.co", { virtualUser := some ({ DomainID := 1, Mail := "a@d.co" } : VirtualUser), virtualUserID := 1, aliasFor := [] }),
       ("b@d.co", { virtualUser := none, virtualUserID := -1, aliasFor := [(7, { DomainID := 1, Source := "b@d.co", Dest := "a@d.co" })] })] := by
  exact ⟨rfl, rfl⟩

/-- C9 (amended): in the merged map, aliases are grouped by their
source address: every attached alias sits under the key equal to its
source, comes from the alias listing and is not a catch-all; with
distinct alias ids, every non-catch-all alias of the listing is
attached under its source; and an entry whose key is no mailbox's mail
is synthetic, carrying no mailbox data and id -1. -/
theorem ListAllUsers_source_grouping (users : List (Int × VirtualUser))
    (aliases : List (Int × Alias)) (res : List (String × ListUserResult))
    (h : ListAllUsers (Except.ok users) (Except.ok aliases) = Except.ok res) :
    (∀ key entry, lookupA res key = some entry →
      ∀ aid al, lookupA entry.aliasFor aid = some al →
        al.Source = key ∧ (aid, al) ∈ aliases ∧
        ∃ nm dm, ParseMailParts al.Source = Except.ok (nm, dm) ∧ nm ≠ "")
  ∧ ((aliases.map Prod.fst).Nodup →
      ∀ aid al, (aid, al) ∈ aliases →
        ∀ nm dm, ParseMailParts al.Source = Except.ok (nm, dm) → nm ≠ "" →
        ∃ entry, lookupA res al.Source = some entry ∧
          lookupA entry.aliasFor aid = some al)
  ∧ (∀ key entry, lookupA res key = some entry →
      (∀ uid u, (uid, u) ∈ users → u.Mail ≠ key) →
      entry.virtualUser = none ∧ entry.virtualUserID = -1) := by
  have hmerge : mergeAliases (buildUserMapAux [] users) aliases = Except.ok res := h
  refine ⟨?_, ?_, ?_⟩
  · have hbase : ∀ key entry, lookupA (buildUserMapAux [] users) key = some entry →
        ∀ aid0 al0, lookupA entry.aliasFor aid0 = some al0 →
          al0.Source = key ∧ (aid0, al0) ∈ ([] : List (Int × Alias)) ∧
          ∃ nm dm, ParseMailParts al0.Source = Except.ok (nm, dm) ∧ nm ≠ "" := by
      intro key entry hk aid0 al0 ha0
      have hnil : entry.aliasFor = [] :=
        buildUserMapAux_aliasFor users [] (fun k e hke => by simp [lookupA] at hke)
          key entry hk
      rw [hnil] at ha0
      cases ha0
    intro key entry hk aid al ha
    obtain ⟨h1, h2, h3⟩ :=
      mergeAliases_sound aliases _ res [] hmerge hbase key entry hk aid al ha
    exact ⟨h1, by simpa using h2, h3⟩
  · intro hnd aid al hm nm dm hp hnm
    exact mergeAliases_complete aliases _ res hmerge hnd aid al hm nm dm hp hnm
  · intro key entry hk hno
    rcases mergeAliases_user_fields aliases _ res hmerge key entry hk with
      ⟨e, he, -, -⟩ | hsyn
    · rw [buildUserMapAux_not_mem users [] key hno] at he
      simp [lookupA] at he
    · exact hsyn

/-- Witness for C9's amended theorem at a concrete input: a lone
non-catch-all alias is attached under its source key. -/
theorem ListAllUsers_source_grouping_witness :
    ∃ entry,
      lookupA [("x@y.z", ({ virtualUser := none, virtualUserID := -1, aliasFor := [(1, { DomainID := 1, Source := "x@y.z", Dest := "w@q.r" })] } : ListUserResult))]
        "x@y.z" = some entry ∧
      lookupA entry.aliasFor 1 =
        some ({ DomainID := 1, Source := "x@y.z", Dest := "w@q.r" } : Alias) := by
  exact (ListAllUsers_source_grouping []
      [(1, { DomainID := 1, Source := "x@y.z", Dest := "w@q.r" })]
      [("x@y.z", { virtualUser := none, virtualUserID := -1, aliasFor := [(1, { DomainID := 1, Source := "x@y.z", Dest := "w@q.r" })] })]
      rfl).2.1 (by decide) 1
      ({ DomainID := 1, Source := "x@y.z", Dest := "w@q.r" } : Alias) (by decide)
      "x" "y.z" rfl (by decide)
